import Mathlib

/-!
Shallow embedding of the OAuth 2.0 message layer of the `open-auth2-rs`
repository, covering the grammar-validated primitive types
(src/types/mod.rs, state.rs, scope.rs, access_token.rs), the PKCE
extension (src/ext/pkce.rs), the response decoding pipeline
(src/transport/mod.rs, src/grant/pre_authorized_code.rs,
src/endpoints/pushed_authorization.rs), metadata discovery
(src/util/discoverable.rs, src/server/metadata.rs) and the access-token
header wrapper (src/types/access_token.rs).

Protocol strings are modelled as lists of byte values (`Bytes`).  HTTP
requests and responses are modelled as explicit records.  External
collaborators declared out of scope by the design (the JSON and
form-urlencoded codecs, the randomness source) appear as explicit
function or list parameters; everything that is code of the repository
is translated directly from the source.
-/

namespace OAuth2

/-- A protocol string, viewed as the list of its byte values. -/
abbrev Bytes := List Nat

/-- Conversion of an ASCII string literal to its byte values. -/
def strBytes (s : String) : Bytes := s.toList.map Char.toNat

/-- Translation of `is_vschar` (src/types/mod.rs): visible ASCII plus
space, range 0x20..=0x7E. -/
def is_vschar (c : Nat) : Bool := 0x20 ≤ c && c ≤ 0x7e

/-- Translation of `is_nqchar` (src/types/mod.rs): 0x21, 0x23-0x5B or
0x5D-0x7E. -/
def is_nqchar (c : Nat) : Bool :=
  c == 0x21 || (0x23 ≤ c && c ≤ 0x5b) || (0x5d ≤ c && c ≤ 0x7e)

namespace State

/-- Translation of `State::validate_bytes` (src/types/state.rs): the
loop returns `false` at the first non-VSCHAR byte, and otherwise
returns `i > 0` where `i` ends at the length. -/
def validate_bytes (bytes : Bytes) : Bool :=
  bytes.all is_vschar && decide (0 < bytes.length)

end State

namespace AccessToken

/-- Translation of `AccessToken::validate_bytes`
(src/types/access_token.rs): every byte VSCHAR and at least one byte. -/
def validate_bytes (bytes : Bytes) : Bool :=
  bytes.all is_vschar && decide (0 < bytes.length)

end AccessToken

namespace ScopeToken

/-- Translation of `ScopeToken::validate_bytes` (src/types/scope.rs):
the loop returns `false` at the first non-NQCHAR byte, and otherwise
returns `i > 1` where `i` ends at the length. -/
def validate_bytes (bytes : Bytes) : Bool :=
  bytes.all is_nqchar && decide (1 < bytes.length)

end ScopeToken

/-- Translation of the loop of `Scope::validate_bytes`
(src/types/scope.rs).  The flag `inToken` records whether the current
scope token already has at least one NQCHAR (the negation of the
loop's `scope_token_empty`): at the end of input the current token
must be nonempty; a space requires a nonempty current token and opens
a fresh one; an NQCHAR extends the current token; any other byte is
rejected. -/
def scopeLoop : Bytes → Bool → Bool
  | [], inToken => inToken
  | b :: rest, inToken =>
    if b == 0x20 then inToken && scopeLoop rest false
    else is_nqchar b && scopeLoop rest true

namespace Scope

/-- Translation of `Scope::validate_bytes` (src/types/scope.rs): run
the loop expecting a first token. -/
def validate_bytes (bytes : Bytes) : Bool := scopeLoop bytes false

end Scope

/-- Model of `str::split(' ')` on byte strings, used by `Scope::iter`
(src/types/scope.rs). -/
def splitSp : Bytes → List Bytes
  | [] => [[]]
  | b :: rest =>
    if b == 0x20 then [] :: splitSp rest
    else
      match splitSp rest with
      | t :: ts => (b :: t) :: ts
      | [] => [[b]]

namespace Scope

/-- Translation of `Scope::contains` (src/types/scope.rs): iterate the
space-separated tokens and compare each with the given token. -/
def contains (s token : Bytes) : Bool := (splitSp s).any (fun t => t == token)

end Scope

namespace ScopeBuf

/-- Translation of `ScopeBuf::insert` (src/types/scope.rs): if the
token is already contained return `false` and leave the scope
untouched, otherwise push a space and the token and return `true`.
The returned pair is the updated buffer together with the boolean
result. -/
def insert (s token : Bytes) : Bytes × Bool :=
  if Scope.contains s token then (s, false)
  else (s ++ 0x20 :: token, true)

end ScopeBuf

/-!
Extension composition (src/types/state.rs `Stateful`,
src/ext/pkce.rs `WithPkceChallenge`).  A redirect-capable request
value is either a base request — identified with the list of query
key-value pairs its serialization produces — or one of the two wrapper
layers.  `build_query` mirrors the recursive `RedirectRequest`
implementations: each wrapper calls `build_query` on its inner value
and re-wraps the result with its own extra field.  `serializeQuery`
mirrors the serde serialization: `Stateful` emits its optional `state`
field (skipped when absent) before the flattened inner value, and
`WithPkceChallenge` emits the flattened `code_challenge` and
`code_challenge_method` fields of its `pkce` member before the
flattened inner value.
-/

/-- A redirect request value built from a base request and the
`Stateful` and `WithPkceChallenge` extension wrappers. -/
inductive RedirectReq where
  | base (fields : List (String × String))
  | stateful (state : Option String) (inner : RedirectReq)
  | withPkceChallenge (code_challenge code_challenge_method : String) (inner : RedirectReq)

/-- Translation of the `RedirectRequest::build_query` implementations
of `Stateful` (src/types/state.rs) and `WithPkceChallenge`
(src/ext/pkce.rs): delegate inward, re-wrapping the inner result with
a clone of the wrapper's own field. -/
def RedirectReq.build_query : RedirectReq → RedirectReq
  | .base fields => .base fields
  | .stateful st inner => .stateful st inner.build_query
  | .withPkceChallenge c m inner => .withPkceChallenge c m inner.build_query

/-- Serde serialization of a redirect request value into query
key-value pairs, following field declaration order and the
`skip_serializing_none` / `flatten` attributes of the source types. -/
def RedirectReq.serializeQuery : RedirectReq → List (String × String)
  | .base fields => fields
  | .stateful st inner =>
    (match st with
     | none => []
     | some s => [("state", s)]) ++ inner.serializeQuery
  | .withPkceChallenge c m inner =>
    ("code_challenge", c) :: ("code_challenge_method", m) :: inner.serializeQuery

/-!
HTTP model and error taxonomy (src/client/mod.rs `OAuth2ClientError`,
the `http` crate's request and response types).
-/

/-- Translation of `OAuth2ClientError` (src/client/mod.rs). -/
inductive OAuth2ClientError where
  | request (msg : String)
  | response (msg : String)
  | serverError (status : Nat)
deriving DecidableEq, Repr

/-- Model of `http::Response<B>`: status code, headers (names
normalized to lower case, as in `http::HeaderMap`), body. -/
structure HttpResponse (B : Type) where
  status : Nat
  headers : List (String × Bytes)
  body : B
deriving DecidableEq, Repr

/-- Model of `http::Request<B>` as built by the request pipeline. -/
structure HttpRequestModel (B : Type) where
  method : String
  uri : String
  headers : List (String × String)
  body : B
deriving DecidableEq, Repr

/-- Model of `HeaderMap::get`: first entry with the given
(normalized) name. -/
def headerGet (headers : List (String × Bytes)) (name : String) : Option Bytes :=
  (headers.find? (fun h => h.1 == name)).map (fun h => h.2)

/-- Model of `slice::starts_with` on byte strings. -/
def bytesStartWith : Bytes → Bytes → Bool
  | _, [] => true
  | [], _ :: _ => false
  | b :: bs, e :: es => b == e && bytesStartWith bs es

/-- The `application/json` content type value (src/transport/mod.rs
`APPLICATION_JSON`). -/
def APPLICATION_JSON : Bytes := strBytes ("application/json")

/-- Translation of `expect_content_type` (src/transport/mod.rs):
error if the `content-type` header is missing, error if its value
does not start with the expected bytes, success otherwise. -/
def expect_content_type (headers : List (String × Bytes)) (expected_value : Bytes) :
    Except OAuth2ClientError Unit :=
  match headerGet headers ("content-type") with
  | none => .error (.response ("missing content type"))
  | some content_type =>
    if bytesStartWith content_type expected_value then .ok ()
    else .error (.response ("unexpected content type"))

/-- Translation of `TokenResponse` (src/endpoints/token.rs) with
token type `String` and extension payload `E`. -/
structure TokenResponse (E : Type) where
  access_token : Bytes
  token_type : String
  expires_in : Option Nat
  refresh_token : Option String
  scope : Option Bytes
  ext : E
deriving DecidableEq, Repr

namespace PreAuthorizedCodeTokenRequest

/-- Translation of `PreAuthorizedCodeTokenRequest::decode_response`
(src/grant/pre_authorized_code.rs).  The JSON codec (serde_json, an
external collaborator) is passed in as the function `de`. -/
def decode_response {E : Type} (de : Bytes → Except String (TokenResponse E))
    (response : HttpResponse Bytes) :
    Except OAuth2ClientError (HttpResponse (TokenResponse E)) :=
  if response.status ≠ 200 then .error (.serverError response.status)
  else
    match expect_content_type response.headers APPLICATION_JSON with
    | .error e => .error e
    | .ok _ =>
      match de response.body with
      | .error e => .error (.response e)
      | .ok body => .ok { status := response.status, headers := response.headers, body := body }

end PreAuthorizedCodeTokenRequest

/-- Translation of `PushedAuthorizationResponse`
(src/endpoints/pushed_authorization.rs). -/
structure PushedAuthorizationResponse where
  request_uri : String
  expires_in : Nat
deriving DecidableEq, Repr

namespace Pushed

/-- Translation of `Pushed::decode_response`
(src/endpoints/pushed_authorization.rs): identical to the token
decode, with expected status 201 (`StatusCode::CREATED`) and payload
`PushedAuthorizationResponse`. -/
def decode_response (de : Bytes → Except String PushedAuthorizationResponse)
    (response : HttpResponse Bytes) :
    Except OAuth2ClientError (HttpResponse PushedAuthorizationResponse) :=
  if response.status ≠ 201 then .error (.serverError response.status)
  else
    match expect_content_type response.headers APPLICATION_JSON with
    | .error e => .error e
    | .ok _ =>
      match de response.body with
      | .error e => .error (.response e)
      | .ok body => .ok { status := response.status, headers := response.headers, body := body }

end Pushed

/-!
Metadata discovery (src/server/metadata.rs, src/util/discoverable.rs).
-/

/-- Translation of `AuthorizationServerMetadata`
(src/server/metadata.rs), with the fields relevant to discovery and an
open extension payload `P`.  URIs are modelled by their textual
form. -/
structure AuthorizationServerMetadata (P : Type) where
  issuer : String
  authorization_endpoint : Option String
  token_endpoint : Option String
  extra : P
deriving DecidableEq, Repr

namespace AuthorizationServerMetadata

/-- Translation of `AuthorizationServerMetadata::validate`
(src/server/metadata.rs): the issuer must equal the requested base
URL. -/
def validate {P : Type} (m : AuthorizationServerMetadata P) (base_url : String) :
    Except OAuth2ClientError Unit :=
  if m.issuer == base_url then .ok ()
  else .error (.response ("invalid authorization server metadata issuer"))

end AuthorizationServerMetadata

/-- Translation of `discovery_response` (src/util/discoverable.rs):
check status 200, check the JSON content type, deserialize the body
(the JSON codec is the external parameter `de`), then run the
metadata's `validate` against the base URL. -/
def discovery_response {P : Type}
    (de : Bytes → Except String (AuthorizationServerMetadata P))
    (base_url : String) (response : HttpResponse Bytes) :
    Except OAuth2ClientError (AuthorizationServerMetadata P) :=
  if response.status ≠ 200 then .error (.serverError response.status)
  else
    match expect_content_type response.headers APPLICATION_JSON with
    | .error e => .error e
    | .ok _ =>
      match de response.body with
      | .error e => .error (.response e)
      | .ok metadata =>
        match metadata.validate base_url with
        | .error e => .error e
        | .ok _ => .ok metadata

/-- Model of `iref::UriBuf`: scheme, optional authority, path as a
list of segments, optional query and fragment. -/
structure UriModel where
  scheme : String
  authority : Option String
  pathSegments : List String
  query : Option String
  fragment : Option String
deriving DecidableEq, Repr

/-- Model of `Path::push` (the iref crate): append one segment. -/
def pushSegment (u : UriModel) (s : String) : UriModel :=
  { u with pathSegments := u.pathSegments ++ [s] }

/-- Translation of `well_known_uri` (src/util/discoverable.rs): start
from the base URL's scheme, set its authority, push every segment of
the well-known reference's path and then every segment of the base
URL's own path, finally set the base URL's query and fragment. -/
def well_known_uri (base_url : UriModel) (well_known : List String) : UriModel :=
  let result : UriModel :=
    { scheme := base_url.scheme, authority := base_url.authority,
      pathSegments := [], query := none, fragment := none }
  let result := well_known.foldl pushSegment result
  let result := base_url.pathSegments.foldl pushSegment result
  { result with query := base_url.query, fragment := base_url.fragment }

/-- Rendering of a URI model back to its textual form. -/
def UriModel.render (u : UriModel) : String :=
  u.scheme ++ ":"
    ++ (match u.authority with
        | some a => "//" ++ a
        | none => "")
    ++ u.pathSegments.foldl (fun acc s => acc ++ "/" ++ s) ""
    ++ (match u.query with
        | some q => "?" ++ q
        | none => "")
    ++ (match u.fragment with
        | some f => "#" ++ f
        | none => "")

/-!
PAR phase 2 (src/endpoints/pushed_authorization.rs
`PushedAuthorizationResponse::for_endpoint`).  The authorization
endpoint is modelled by its client's identifier and the key-value
pairs of the query string already present on its URI; the
form-urlencoded codec that turns a query string into its pair
sequence and back is an external collaborator and is modelled as the
identity on pair lists.  The source does not keep those pairs as a
sequence, however: it deserializes them into a
`BTreeMap<String, String>` before re-serializing, so pairs with a
duplicate key collapse to the last value and the surviving entries
are emitted in ascending key order.  `btreeInsert` and
`btreeFromList` model that map as a key-sorted association list.
-/

/-- Model of `AuthorizationEndpoint`
(src/endpoints/authorization.rs): the client's `client_id` and the
key-value pairs of the query string of the endpoint URI. -/
structure AuthorizationEndpointModel where
  client_id : String
  uriQuery : List (String × String)
deriving DecidableEq, Repr

/-- Model of `BTreeMap::insert` on a key-sorted association list: an
entry with an equal key is replaced, otherwise the new entry is
placed at its ordered position. -/
def btreeInsert : List (String × String) → String → String → List (String × String)
  | [], k, v => [(k, v)]
  | (k0, v0) :: rest, k, v =>
    if k == k0 then (k, v) :: rest
    else if k < k0 then (k, v) :: (k0, v0) :: rest
    else (k0, v0) :: btreeInsert rest k v

/-- Model of deserializing a pair sequence into a
`BTreeMap<String, String>` and iterating it: the pairs are inserted
in order (a later duplicate key overwrites an earlier entry) and the
result is sorted by key. -/
def btreeFromList (q : List (String × String)) : List (String × String) :=
  q.foldl (fun acc x => btreeInsert acc x.1 x.2) []

/-- Translation of `PushedAuthorizationRequest`
(src/endpoints/pushed_authorization.rs): `client_id`, `request_uri`
and the flattened extension parameters. -/
structure PushedAuthorizationRequest where
  client_id : String
  request_uri : String
  ext : List (String × String)
deriving DecidableEq, Repr

/-- Serde serialization of `PushedAuthorizationRequest` into query
parameters: `client_id`, then `request_uri`, then the flattened
extension entries. -/
def PushedAuthorizationRequest.serializeForm (r : PushedAuthorizationRequest) :
    List (String × String) :=
  ("client_id", r.client_id) :: ("request_uri", r.request_uri) :: r.ext

namespace PushedAuthorizationResponse

/-- Translation of `PushedAuthorizationResponse::for_endpoint`
(src/endpoints/pushed_authorization.rs): rebuild the endpoint URI's
query from a `PushedAuthorizationRequest` holding the endpoint
client's `client_id`, the response's `request_uri` and, as extension
entries, the existing query of the endpoint URI deserialized into a
`BTreeMap<String, String>`.  The result is the pair list of the
produced URI's query. -/
def for_endpoint (r : PushedAuthorizationResponse)
    (endpoint : AuthorizationEndpointModel) : List (String × String) :=
  PushedAuthorizationRequest.serializeForm
    { client_id := endpoint.client_id,
      request_uri := r.request_uri,
      ext := btreeFromList endpoint.uriQuery }

end PushedAuthorizationResponse

/-!
Access-token header injection (src/types/access_token.rs
`WithAccessToken`).
-/

/-- Model of `HeaderMap::insert`: any previous value under the name is
replaced by the new value. -/
def headerInsert (headers : List (String × String)) (name value : String) :
    List (String × String) :=
  headers.filter (fun h => h.1 != name) ++ [(name, value)]

namespace WithAccessToken

/-- Translation of `WithAccessToken::build_request`
(src/types/access_token.rs): delegate to the inner request (whose
outcome is the parameter `inner`) and, on success, insert the
`authorization` header with value `token_type SP access_token`,
leaving everything else untouched.  An inner error is returned as
is. -/
def build_request {B : Type} (token_type access_token : String)
    (inner : Except OAuth2ClientError (HttpRequestModel B)) :
    Except OAuth2ClientError (HttpRequestModel B) :=
  match inner with
  | .error e => .error e
  | .ok request =>
    .ok { request with
          headers := headerInsert request.headers ("authorization")
            (token_type ++ " " ++ access_token) }

end WithAccessToken

/-!
PKCE (src/ext/pkce.rs).  The `base64` crate's
`BASE64_URL_SAFE_NO_PAD` engine and the `sha2` crate's SHA-256 are
external collaborators; they are embedded here as executable
reference implementations of base64url-no-pad encoding and of
FIPS 180-4 SHA-256 over byte lists.
-/

/-- Translation of `is_ascii_alphanumeric` on a byte value. -/
def isAsciiAlphanumericByte (b : Nat) : Bool :=
  (0x30 ≤ b && b ≤ 0x39) || (0x41 ≤ b && b ≤ 0x5a) || (0x61 ≤ b && b ≤ 0x7a)

/-- Translation of `validate_verifier_or_challenge` (src/ext/pkce.rs):
length 43 to 128, every byte alphanumeric or one of `-` `.` `_` `~`. -/
def validate_verifier_or_challenge (bytes : Bytes) : Bool :=
  if bytes.length < 43 || 128 < bytes.length then false
  else bytes.all (fun b =>
    isAsciiAlphanumericByte b || b == 0x2d || b == 0x2e || b == 0x5f || b == 0x7e)

namespace PkceCodeVerifier

/-- Translation of `PkceCodeVerifier::validate_bytes`
(src/ext/pkce.rs). -/
def validate_bytes (bytes : Bytes) : Bool := validate_verifier_or_challenge bytes

end PkceCodeVerifier

namespace PkceCodeChallenge

/-- Translation of `PkceCodeChallenge::validate_bytes`
(src/ext/pkce.rs). -/
def validate_bytes (bytes : Bytes) : Bool := validate_verifier_or_challenge bytes

end PkceCodeChallenge

/-- The base64url alphabet (A-Z, a-z, 0-9, `-`, `_`) as byte
values. -/
def b64urlAlphabet : Bytes :=
  (List.range 26).map (fun i => 65 + i)
    ++ (List.range 26).map (fun i => 97 + i)
    ++ (List.range 10).map (fun i => 48 + i)
    ++ [0x2d, 0x5f]

/-- The base64url symbol for a 6-bit value. -/
def b64Byte (n : Nat) : Nat := b64urlAlphabet.getD n 0

/-- Base64url-no-pad encoding of a byte list, three input bytes per
four output symbols, with truncated final groups and no padding. -/
def b64urlEncode : Bytes → Bytes
  | [] => []
  | [b1] => [b64Byte (b1 / 4), b64Byte (b1 % 4 * 16)]
  | [b1, b2] => [b64Byte (b1 / 4), b64Byte (b1 % 4 * 16 + b2 / 16), b64Byte (b2 % 16 * 4)]
  | b1 :: b2 :: b3 :: rest =>
    b64Byte (b1 / 4) :: b64Byte (b1 % 4 * 16 + b2 / 16)
      :: b64Byte (b2 % 16 * 4 + b3 / 64) :: b64Byte (b3 % 64) :: b64urlEncode rest

/-- Right rotation of a 32-bit word. -/
def rotr32 (n x : Nat) : Nat := (x / 2 ^ n + x % 2 ^ n * 2 ^ (32 - n)) % 2 ^ 32

/-- SHA-256 message-schedule sigma-0. -/
def smallSigma0 (x : Nat) : Nat := rotr32 7 x ^^^ rotr32 18 x ^^^ x / 2 ^ 3

/-- SHA-256 message-schedule sigma-1. -/
def smallSigma1 (x : Nat) : Nat := rotr32 17 x ^^^ rotr32 19 x ^^^ x / 2 ^ 10

/-- SHA-256 round function Sigma-0. -/
def bigSigma0 (x : Nat) : Nat := rotr32 2 x ^^^ rotr32 13 x ^^^ rotr32 22 x

/-- SHA-256 round function Sigma-1. -/
def bigSigma1 (x : Nat) : Nat := rotr32 6 x ^^^ rotr32 11 x ^^^ rotr32 25 x

/-- SHA-256 choice function. -/
def chFn (e f g : Nat) : Nat := (e &&& f) ^^^ ((e ^^^ 0xffffffff) &&& g)

/-- SHA-256 majority function. -/
def majFn (a b c : Nat) : Nat := (a &&& b) ^^^ (a &&& c) ^^^ (b &&& c)

/-- The SHA-256 round constants. -/
def sha256K : List Nat :=
  [1116352408, 1899447441, 3049323471, 3921009573,
   961987163, 1508970993, 2453635748, 2870763221,
   3624381080, 310598401, 607225278, 1426881987,
   1925078388, 2162078206, 2614888103, 3248222580,
   3835390401, 4022224774, 264347078, 604807628,
   770255983, 1249150122, 1555081692, 1996064986,
   2554220882, 2821834349, 2952996808, 3210313671,
   3336571891, 3584528711, 113926993, 338241895,
   666307205, 773529912, 1294757372, 1396182291,
   1695183700, 1986661051, 2177026350, 2456956037,
   2730485921, 2820302411, 3259730800, 3345764771,
   3516065817, 3600352804, 4094571909, 275423344,
   430227734, 506948616, 659060556, 883997877,
   958139571, 1322822218, 1537002063, 1747873779,
   1955562222, 2024104815, 2227730452, 2361852424,
   2428436474, 2756734187, 3204031479, 3329325298]

/-- The eight SHA-256 working variables. -/
structure Sha256State where
  a : Nat
  b : Nat
  c : Nat
  d : Nat
  e : Nat
  f : Nat
  g : Nat
  h : Nat
deriving DecidableEq, Repr

/-- The SHA-256 initial hash value. -/
def sha256Start : Sha256State :=
  ⟨1779033703, 3144134277, 1013904242, 2773480762,
   1359893119, 2600822924, 528734635, 1541459225⟩

/-- Big-endian packing of bytes into 32-bit words. -/
def bytesToWords : Bytes → List Nat
  | b1 :: b2 :: b3 :: b4 :: rest =>
    (b1 * 2 ^ 24 + b2 * 2 ^ 16 + b3 * 2 ^ 8 + b4) :: bytesToWords rest
  | _ => []

/-- Extension of the 16-word message schedule by `n` further words. -/
def extendWords (ws : List Nat) : Nat → List Nat
  | 0 => ws
  | n + 1 =>
    let prev := extendWords ws n
    let w2 := prev.getD (prev.length - 2) 0
    let w7 := prev.getD (prev.length - 7) 0
    let w15 := prev.getD (prev.length - 15) 0
    let w16 := prev.getD (prev.length - 16) 0
    prev ++ [(smallSigma1 w2 + w7 + smallSigma0 w15 + w16) % 2 ^ 32]

/-- One SHA-256 round, consuming a round constant and a schedule
word. -/
def sha256Round (s : Sha256State) (kw : Nat × Nat) : Sha256State :=
  let t1 := (s.h + bigSigma1 s.e + chFn s.e s.f s.g + kw.1 + kw.2) % 2 ^ 32
  let t2 := (bigSigma0 s.a + majFn s.a s.b s.c) % 2 ^ 32
  { a := (t1 + t2) % 2 ^ 32, b := s.a, c := s.b, d := s.c,
    e := (s.d + t1) % 2 ^ 32, f := s.e, g := s.f, h := s.g }

/-- SHA-256 compression of one 64-byte block. -/
def sha256Compress (s : Sha256State) (block : Bytes) : Sha256State :=
  let ws := extendWords (bytesToWords block) 48
  let t := (sha256K.zip ws).foldl sha256Round s
  { a := (s.a + t.a) % 2 ^ 32, b := (s.b + t.b) % 2 ^ 32,
    c := (s.c + t.c) % 2 ^ 32, d := (s.d + t.d) % 2 ^ 32,
    e := (s.e + t.e) % 2 ^ 32, f := (s.f + t.f) % 2 ^ 32,
    g := (s.g + t.g) % 2 ^ 32, h := (s.h + t.h) % 2 ^ 32 }

/-- Big-endian 64-bit length field of the SHA-256 padding. -/
def lenBytes64 (n : Nat) : Bytes :=
  [n / 2 ^ 56 % 256, n / 2 ^ 48 % 256, n / 2 ^ 40 % 256, n / 2 ^ 32 % 256,
   n / 2 ^ 24 % 256, n / 2 ^ 16 % 256, n / 2 ^ 8 % 256, n % 256]

/-- SHA-256 message padding: a 0x80 byte, zeros up to 56 modulo 64,
and the bit length in 8 big-endian bytes. -/
def sha256Pad (msg : Bytes) : Bytes :=
  msg ++ 0x80 :: (List.replicate ((119 - msg.length % 64) % 64) 0
    ++ lenBytes64 (msg.length * 8))

/-- Split the padded message into 64-byte blocks. -/
def chunks64 : Bytes → List Bytes
  | [] => []
  | b :: rest => ((b :: rest).take 64) :: chunks64 ((b :: rest).drop 64)
termination_by l => l.length
decreasing_by simp [List.length_drop]; omega

/-- Big-endian serialization of one 32-bit word into four bytes. -/
def wordBytes (w : Nat) : Bytes :=
  [w / 2 ^ 24 % 256, w / 2 ^ 16 % 256, w / 2 ^ 8 % 256, w % 256]

/-- SHA-256 of a byte list. -/
def sha256 (msg : Bytes) : Bytes :=
  let s := (chunks64 (sha256Pad msg)).foldl sha256Compress sha256Start
  wordBytes s.a ++ wordBytes s.b ++ wordBytes s.c ++ wordBytes s.d
    ++ wordBytes s.e ++ wordBytes s.f ++ wordBytes s.g ++ wordBytes s.h

/-- Translation of `PkceCodeChallengeMethod` (src/ext/pkce.rs). -/
inductive PkceCodeChallengeMethod where
  | plain
  | s256
deriving DecidableEq, Repr

namespace PkceCodeChallengeMethod

/-- Translation of `PkceCodeChallengeMethod::transform`
(src/ext/pkce.rs): `Plain` borrows the verifier bytes unchanged,
`S256` encodes the SHA-256 digest of the verifier bytes with
base64url-no-pad. -/
def transform (m : PkceCodeChallengeMethod) (code_verifier : Bytes) : Bytes :=
  match m with
  | .plain => code_verifier
  | .s256 => b64urlEncode (sha256 code_verifier)

end PkceCodeChallengeMethod

namespace StateBuf

/-- Translation of `StateBuf::new_random_len` (src/types/state.rs).
The randomness collaborator's outcome — the `len` random bytes — is
the parameter `random_bytes`; the function base64url-encodes it and
wraps the result with the unchecked constructor, bypassing
validation. -/
def new_random_len (random_bytes : Bytes) : Bytes := b64urlEncode random_bytes

/-- Translation of `StateBuf::new_random` (src/types/state.rs):
`new_random_len(16)`, so the randomness outcome is a 16-byte list. -/
def new_random (random_bytes : Bytes) : Bytes := new_random_len random_bytes

end StateBuf

/-!
Helper lemmas.
-/

/-- Folding `pushSegment` appends the folded segments to the path and
leaves every other component unchanged. -/
theorem foldl_pushSegment (l : List String) (u : UriModel) :
    l.foldl pushSegment u = { u with pathSegments := u.pathSegments ++ l } := by
  induction l generalizing u with
  | nil => simp
  | cons s rest ih => simp [pushSegment, ih]

/-- Length of a base64url-no-pad encoding. -/
theorem b64urlEncode_length : ∀ l : Bytes, (b64urlEncode l).length = (4 * l.length + 2) / 3
  | [] => by simp [b64urlEncode]
  | [b1] => by simp [b64urlEncode]
  | [b1, b2] => by simp [b64urlEncode]
  | b1 :: b2 :: b3 :: rest => by
    have ih := b64urlEncode_length rest
    simp [b64urlEncode, ih]
    omega

/-- Every output byte of the base64url encoding of a list of bytes
below 256 is an alphabet symbol. -/
theorem b64urlEncode_mem : ∀ l : Bytes, (∀ b ∈ l, b < 256) →
    ∀ x ∈ b64urlEncode l, ∃ n, n < 64 ∧ x = b64Byte n
  | [], _, x, hx => by simp [b64urlEncode] at hx
  | [b1], hb, x, hx => by
    have h1 : b1 < 256 := hb b1 (by simp)
    simp [b64urlEncode] at hx
    rcases hx with h | h <;> exact ⟨_, by omega, h⟩
  | [b1, b2], hb, x, hx => by
    have h1 : b1 < 256 := hb b1 (by simp)
    have h2 : b2 < 256 := hb b2 (by simp)
    simp [b64urlEncode] at hx
    rcases hx with h | h | h <;> exact ⟨_, by omega, h⟩
  | b1 :: b2 :: b3 :: rest, hb, x, hx => by
    have h1 : b1 < 256 := hb b1 (by simp)
    have h2 : b2 < 256 := hb b2 (by simp)
    have h3 : b3 < 256 := hb b3 (by simp)
    simp only [b64urlEncode, List.mem_cons] at hx
    rcases hx with h | h | h | h | h
    · exact ⟨_, by omega, h⟩
    · exact ⟨_, by omega, h⟩
    · exact ⟨_, by omega, h⟩
    · exact ⟨_, by omega, h⟩
    · exact b64urlEncode_mem rest (fun b hmem => hb b (by simp [hmem])) x h

/-- Every alphabet symbol satisfies the unreserved-character check of
`validate_verifier_or_challenge`. -/
theorem b64Byte_unreserved : ∀ n, n < 64 →
    (isAsciiAlphanumericByte (b64Byte n) || b64Byte n == 0x2d || b64Byte n == 0x2e
      || b64Byte n == 0x5f || b64Byte n == 0x7e) = true := by decide

/-- Every alphabet symbol is a VSCHAR. -/
theorem b64Byte_vschar : ∀ n, n < 64 → is_vschar (b64Byte n) = true := by decide

/-- A SHA-256 digest has 32 bytes. -/
theorem sha256_length (msg : Bytes) : (sha256 msg).length = 32 := by
  simp [sha256, wordBytes]

/-- Every byte of a SHA-256 digest is below 256. -/
theorem sha256_lt (msg : Bytes) : ∀ x ∈ sha256 msg, x < 256 := by
  intro x hx
  simp [sha256, wordBytes] at hx
  omega

/-- `splitSp` never returns the empty list. -/
theorem splitSp_ne_nil : ∀ l : Bytes, splitSp l ≠ []
  | [] => by simp [splitSp]
  | b :: rest => by
    have h := splitSp_ne_nil rest
    simp only [splitSp]
    split
    · simp
    · split
      · simp
      · simp

/-- Splitting at a separator boundary splits the two sides
independently. -/
theorem splitSp_append_space : ∀ xs ys : Bytes,
    splitSp (xs ++ 0x20 :: ys) = splitSp xs ++ splitSp ys
  | [], ys => by simp [splitSp]
  | b :: rest, ys => by
    have ih := splitSp_append_space rest ys
    obtain ⟨t0, ts0, hsplit⟩ : ∃ t0 ts0, splitSp rest = t0 :: ts0 := by
      cases h : splitSp rest with
      | nil => exact absurd h (splitSp_ne_nil rest)
      | cons t0 ts0 => exact ⟨t0, ts0, rfl⟩
    by_cases hb : b == 0x20
    · simp [splitSp, hb, ih]
    · simp [splitSp, hb, ih, hsplit]

/-- A byte list without the space byte splits into itself alone. -/
theorem splitSp_no_space : ∀ t : Bytes, (∀ b ∈ t, b ≠ 0x20) → splitSp t = [t]
  | [], _ => by simp [splitSp]
  | b :: rest, h => by
    have hb : b ≠ 0x20 := h b (by simp)
    have ih := splitSp_no_space rest (fun x hx => h x (by simp [hx]))
    simp [splitSp, hb, ih]

/-- NQCHAR excludes the space byte. -/
theorem is_nqchar_ne_space {b : Nat} (h : is_nqchar b = true) : b ≠ 0x20 := by
  intro hb
  subst hb
  simp [is_nqchar] at h

/-- A nonempty all-NQCHAR byte list passes the scope validation loop
from the fresh-token state. -/
theorem scopeLoop_of_token : ∀ t : Bytes, t ≠ [] → t.all is_nqchar = true →
    scopeLoop t false = true := by
  have inside : ∀ t : Bytes, t.all is_nqchar = true → scopeLoop t true = true := by
    intro t
    induction t with
    | nil => intro _; simp [scopeLoop]
    | cons b rest ih =>
      intro h
      simp only [List.all_cons, Bool.and_eq_true] at h
      by_cases hb : (b == 0x20) = true
      · exact absurd (eq_of_beq hb) (is_nqchar_ne_space h.1)
      · simp [scopeLoop, hb, h.1, ih h.2]
  intro t ht hall
  cases t with
  | nil => exact absurd rfl ht
  | cons b rest =>
    simp only [List.all_cons, Bool.and_eq_true] at hall
    have hb : (b == 0x20) = false := by
      simp only [beq_eq_false_iff_ne, ne_eq]
      exact is_nqchar_ne_space hall.1
    simp [scopeLoop, hb, hall.1, inside rest hall.2]

/-- Appending a space and a further valid token preserves the scope
validation loop from any state. -/
theorem scopeLoop_append_token (t : Bytes) (ht : scopeLoop t false = true) :
    ∀ (xs : Bytes) (inToken : Bool), scopeLoop xs inToken = true →
      scopeLoop (xs ++ 0x20 :: t) inToken = true := by
  intro xs
  induction xs with
  | nil =>
    intro inToken h
    simp only [scopeLoop] at h
    simp [scopeLoop, h, ht]
  | cons b rest ih =>
    intro inToken h
    by_cases hb : (b == 0x20) = true
    · simp only [scopeLoop, hb, if_true, Bool.and_eq_true] at h
      simp [scopeLoop, hb, h.1, ih false h.2]
    · simp only [scopeLoop, hb, if_false, Bool.false_eq_true, Bool.and_eq_true] at h
      simp [scopeLoop, hb, h.1, ih true h.2]

/-- Every entry of `btreeInsert m k v` is the inserted pair or an
entry of `m`. -/
theorem btreeInsert_subset : ∀ (m : List (String × String)) (k v : String)
    (p : String × String), p ∈ btreeInsert m k v → p = (k, v) ∨ p ∈ m
  | [], k, v, p, hp => by
    simp only [btreeInsert, List.mem_singleton] at hp
    exact Or.inl hp
  | (k0, v0) :: rest, k, v, p, hp => by
    by_cases he : (k == k0) = true
    · simp only [btreeInsert, he, if_true, List.mem_cons] at hp
      rcases hp with h | h
      · exact Or.inl h
      · exact Or.inr (List.mem_cons_of_mem _ h)
    · by_cases hl : k < k0
      · simp only [btreeInsert, he, hl, if_true, if_false, Bool.false_eq_true,
          List.mem_cons] at hp
        rcases hp with h | h | h
        · exact Or.inl h
        · exact Or.inr (by rw [h]; exact List.mem_cons_self _ _)
        · exact Or.inr (List.mem_cons_of_mem _ h)
      · simp only [btreeInsert, he, hl, if_false, Bool.false_eq_true, List.mem_cons] at hp
        rcases hp with h | h
        · exact Or.inr (by rw [h]; exact List.mem_cons_self _ _)
        · rcases btreeInsert_subset rest k v p h with h2 | h2
          · exact Or.inl h2
          · exact Or.inr (List.mem_cons_of_mem _ h2)

/-- The inserted pair is an entry of `btreeInsert m k v`. -/
theorem btreeInsert_mem_self : ∀ (m : List (String × String)) (k v : String),
    (k, v) ∈ btreeInsert m k v
  | [], k, v => by simp [btreeInsert]
  | (k0, v0) :: rest, k, v => by
    by_cases he : (k == k0) = true
    · simp [btreeInsert, he]
    · by_cases hl : k < k0
      · simp [btreeInsert, he, hl]
      · simp only [btreeInsert, he, hl, if_false, Bool.false_eq_true, List.mem_cons]
        exact Or.inr (btreeInsert_mem_self rest k v)

/-- An entry whose key differs from the inserted key survives
`btreeInsert`. -/
theorem btreeInsert_mem_of_ne : ∀ (m : List (String × String)) (k v : String)
    (p : String × String), p ∈ m → p.1 ≠ k → p ∈ btreeInsert m k v
  | [], _, _, _, hp, _ => by simp at hp
  | (k0, v0) :: rest, k, v, p, hp, hne => by
    rcases List.mem_cons.mp hp with h | h
    · by_cases he : (k == k0) = true
      · exact absurd (by rw [h, eq_of_beq he]) hne
      · by_cases hl : k < k0
        · simp [btreeInsert, he, hl, h]
        · simp [btreeInsert, he, hl, h]
    · by_cases he : (k == k0) = true
      · simp only [btreeInsert, he, if_true, List.mem_cons]
        exact Or.inr h
      · by_cases hl : k < k0
        · simp only [btreeInsert, he, hl, if_true, if_false, Bool.false_eq_true,
            List.mem_cons]
          exact Or.inr (Or.inr h)
        · simp only [btreeInsert, he, hl, if_false, Bool.false_eq_true, List.mem_cons]
          exact Or.inr (btreeInsert_mem_of_ne rest k v p h hne)

/-- Every entry of the map accumulated from `m` over the pairs of `q`
comes from `m` or from `q`. -/
theorem btreeFoldl_subset : ∀ (q m : List (String × String)) (p : String × String),
    p ∈ q.foldl (fun acc x => btreeInsert acc x.1 x.2) m → p ∈ m ∨ p ∈ q
  | [], m, p, hp => Or.inl hp
  | x :: rest, m, p, hp => by
    rcases btreeFoldl_subset rest (btreeInsert m x.1 x.2) p hp with h | h
    · rcases btreeInsert_subset m x.1 x.2 p h with h2 | h2
      · exact Or.inr (by rw [h2]; exact List.mem_cons_self _ _)
      · exact Or.inl h2
    · exact Or.inr (List.mem_cons_of_mem _ h)

/-- An accumulated entry whose key occurs in none of the remaining
pairs survives the whole fold. -/
theorem btreeFoldl_preserve : ∀ (q m : List (String × String)) (p : String × String),
    p ∈ m → p.1 ∉ q.map Prod.fst → p ∈ q.foldl (fun acc x => btreeInsert acc x.1 x.2) m
  | [], _, _, hp, _ => hp
  | x :: rest, m, p, hp, hk => by
    simp only [List.map_cons, List.mem_cons, not_or] at hk
    exact btreeFoldl_preserve rest (btreeInsert m x.1 x.2) p
      (btreeInsert_mem_of_ne m x.1 x.2 p hp hk.1) hk.2

/-- When the keys of `q` are pairwise distinct, every pair of `q` is
an entry of the map built from `q`. -/
theorem btreeFoldl_mem : ∀ (q m : List (String × String)) (p : String × String),
    p ∈ q → (q.map Prod.fst).Nodup →
      p ∈ q.foldl (fun acc x => btreeInsert acc x.1 x.2) m
  | [], _, _, hp, _ => by simp at hp
  | x :: rest, m, p, hp, hnd => by
    simp only [List.map_cons, List.nodup_cons, List.mem_map] at hnd
    rcases List.mem_cons.mp hp with h | h
    · subst h
      exact btreeFoldl_preserve rest (btreeInsert m p.1 p.2) p
        (btreeInsert_mem_self m p.1 p.2)
        (by
          intro hmem
          rcases List.mem_map.mp hmem with ⟨y, hy, hyk⟩
          exact hnd.1 ⟨y, hy, hyk⟩)
    · exact btreeFoldl_mem rest (btreeInsert m x.1 x.2) p h hnd.2

/-!
Claim theorems.
-/

/-- C1: for a base redirect request, a state token and a PKCE
challenge-and-method, wrapping in either order and serializing the
result of `build_query` yields the same set of query key-value pairs,
ignoring positional order. -/
theorem stateful_pkce_build_query_comm
    (fields : List (String × String)) (s c m : String) :
    ((RedirectReq.withPkceChallenge c m
        (.stateful (some s) (.base fields))).build_query.serializeQuery).Perm
      ((RedirectReq.stateful (some s)
        (.withPkceChallenge c m (.base fields))).build_query.serializeQuery) := by
  simp only [RedirectReq.build_query, RedirectReq.serializeQuery, List.singleton_append]
  show (([("code_challenge", c), ("code_challenge_method", m)] : List (String × String))
      ++ ("state", s) :: fields).Perm
    (("state", s) :: ([("code_challenge", c), ("code_challenge_method", m)] ++ fields))
  exact List.perm_middle

/-- C3: the claim states that every single-character NQCHAR string is
accepted by `ScopeToken::new`; the code rejects it, because
`ScopeToken::validate_bytes` finishes with the check `i > 1`,
requiring at least two bytes, although 0x61 is an NQCHAR and the
type's own documented grammar is `1*NQCHAR`. -/
theorem scopeToken_single_nqchar_rejected :
    ScopeToken.validate_bytes [0x61] = false
      ∧ is_nqchar 0x61 = true
      ∧ strBytes ("a") = [0x61]
      ∧ ScopeToken.validate_bytes [] = false
      ∧ ScopeToken.validate_bytes [0x61, 0x62] = true := by decide

/-- C7: `well_known_uri` keeps the base URL's scheme, authority,
query and fragment, and its path is the well-known reference's
segments followed by the base URL's own segments; on the concrete
example this renders to the expected URI. -/
theorem well_known_uri_spec :
    (∀ (base_url : UriModel) (well_known : List String),
      (well_known_uri base_url well_known).scheme = base_url.scheme
      ∧ (well_known_uri base_url well_known).authority = base_url.authority
      ∧ (well_known_uri base_url well_known).query = base_url.query
      ∧ (well_known_uri base_url well_known).fragment = base_url.fragment
      ∧ (well_known_uri base_url well_known).pathSegments
          = well_known ++ base_url.pathSegments)
    ∧ (well_known_uri
        { scheme := "https", authority := some ("issuer.example.com"),
          pathSegments := ["tenant"], query := none, fragment := none }
        [".well-known", "oauth-authorization-server"]).render
      = "https://issuer.example.com/.well-known/oauth-authorization-server/tenant" := by
  constructor
  · intro base_url well_known
    simp [well_known_uri, foldl_pushSegment]
  · rfl

/-- C5 counterexample: with an existing query `lang=en&lang=fr` the
pair `("lang", "en")` is a parameter of the endpoint URI's query but
the query produced by `for_endpoint` does not contain it — the
`BTreeMap` round-trip keeps only the last value of a duplicate key —
so the produced parameter set is not exactly the parameters of the
existing query plus `client_id` and `request_uri`. -/
theorem for_endpoint_duplicate_key_dropped :
    ("lang", "en") ∈ ([("lang", "en"), ("lang", "fr")] : List (String × String))
    ∧ ("lang", "en") ∉ PushedAuthorizationResponse.for_endpoint
        ⟨"urn:x", 60⟩ ⟨"cid", [("lang", "en"), ("lang", "fr")]⟩ := by
  constructor
  · simp
  · decide

/-- C5, amended: the query produced by `for_endpoint` is always
contained in the endpoint client's `client_id`, the response's
`request_uri` and the parameters already present on the authorization
endpoint URI — so in particular no parameter of the original phase-1
pushed request that is none of these can appear — and when the
existing query's parameter keys are pairwise distinct the produced
parameter set is exactly those three contributions. -/
theorem for_endpoint_query_spec (r : PushedAuthorizationResponse)
    (endpoint : AuthorizationEndpointModel) :
    (∀ p : String × String, p ∈ r.for_endpoint endpoint →
        p = ("client_id", endpoint.client_id) ∨ p = ("request_uri", r.request_uri)
          ∨ p ∈ endpoint.uriQuery)
    ∧ ((endpoint.uriQuery.map Prod.fst).Nodup →
        ∀ p : String × String,
          p ∈ r.for_endpoint endpoint ↔
            p = ("client_id", endpoint.client_id) ∨ p = ("request_uri", r.request_uri)
              ∨ p ∈ endpoint.uriQuery)
    ∧ (∀ q : String × String, q.1 ≠ "client_id" → q.1 ≠ "request_uri" →
        q ∉ endpoint.uriQuery → q ∉ r.for_endpoint endpoint) := by
  have hsub : ∀ p : String × String, p ∈ r.for_endpoint endpoint →
      p = ("client_id", endpoint.client_id) ∨ p = ("request_uri", r.request_uri)
        ∨ p ∈ endpoint.uriQuery := by
    intro p hp
    simp only [PushedAuthorizationResponse.for_endpoint,
      PushedAuthorizationRequest.serializeForm, btreeFromList, List.mem_cons] at hp
    rcases hp with h | h | h
    · exact Or.inl h
    · exact Or.inr (Or.inl h)
    · rcases btreeFoldl_subset endpoint.uriQuery [] p h with h2 | h2
      · simp at h2
      · exact Or.inr (Or.inr h2)
  refine ⟨hsub, ?_, ?_⟩
  · intro hnd p
    constructor
    · exact hsub p
    · intro hp
      simp only [PushedAuthorizationResponse.for_endpoint,
        PushedAuthorizationRequest.serializeForm, btreeFromList, List.mem_cons]
      rcases hp with h | h | h
      · exact Or.inl h
      · exact Or.inr (Or.inl h)
      · exact Or.inr (Or.inr (btreeFoldl_mem endpoint.uriQuery [] p h hnd))
  · intro q h1 h2 h3 hmem
    rcases hsub q hmem with h | h | h
    · exact h1 (by rw [h])
    · exact h2 (by rw [h])
    · exact h3 h

/-- Witness for C5 at a concrete response and endpoint with a
duplicate-free query. -/
theorem for_endpoint_query_spec_witness :
    ("lang", "en") ∈ PushedAuthorizationResponse.for_endpoint
      ⟨"urn:x", 60⟩ ⟨"cid", [("lang", "en")]⟩ :=
  (((for_endpoint_query_spec ⟨"urn:x", 60⟩ ⟨"cid", [("lang", "en")]⟩).2.1
    (by decide)) ("lang", "en")).mpr (Or.inr (Or.inr (by simp)))

/-- C9: whenever the inner request succeeds,
`WithAccessToken::build_request` succeeds with the same method, URI
and body, and with the headers updated only by inserting the
`authorization` header with value `token_type SP access_token`; an
inner error is surfaced unchanged, so the wrapper introduces no error
of its own. -/
theorem with_access_token_build_request_spec {B : Type}
    (token_type access_token : String)
    (inner : Except OAuth2ClientError (HttpRequestModel B)) :
    (∀ r, inner = .ok r →
      WithAccessToken.build_request token_type access_token inner
        = .ok { r with headers := headerInsert r.headers ("authorization") (token_type ++ " " ++ access_token) }
      ∧ ∀ u, WithAccessToken.build_request token_type access_token inner = .ok u →
          u.method = r.method ∧ u.uri = r.uri ∧ u.body = r.body)
    ∧ (∀ e, inner = .error e →
        WithAccessToken.build_request token_type access_token inner = .error e) := by
  constructor
  · intro r hr
    subst hr
    refine ⟨rfl, ?_⟩
    intro u hu
    simp only [WithAccessToken.build_request, Except.ok.injEq] at hu
    subst hu
    exact ⟨rfl, rfl, rfl⟩
  · intro e he
    subst he
    rfl

/-- Witness for C9 at a concrete inner request. -/
theorem with_access_token_build_request_spec_witness :
    WithAccessToken.build_request ("Bearer") ("abc")
        (.ok (⟨"POST", "uri:a", [], 0⟩ : HttpRequestModel Nat))
      = .ok (⟨"POST", "uri:a", headerInsert [] ("authorization") ("Bearer" ++ " " ++ "abc"), 0⟩ : HttpRequestModel Nat) :=
  ((with_access_token_build_request_spec ("Bearer") ("abc")
    (.ok (⟨"POST", "uri:a", [], 0⟩ : HttpRequestModel Nat))).1
    ⟨"POST", "uri:a", [], 0⟩ rfl).1

/-- C10: for any number of random bytes of at least one, the
base64url-no-pad encoding returned by `StateBuf::new_random_len` —
built with the unchecked constructor — satisfies the `State` grammar
1*VSCHAR, and so does the 16-byte `StateBuf::new_random`. -/
theorem new_random_state_valid :
    (∀ rb : Bytes, 1 ≤ rb.length → (∀ b ∈ rb, b < 256) →
      State.validate_bytes (StateBuf.new_random_len rb) = true)
    ∧ (∀ rb : Bytes, rb.length = 16 → (∀ b ∈ rb, b < 256) →
      State.validate_bytes (StateBuf.new_random rb) = true) := by
  have main : ∀ rb : Bytes, 1 ≤ rb.length → (∀ b ∈ rb, b < 256) →
      State.validate_bytes (StateBuf.new_random_len rb) = true := by
    intro rb hlen hb
    unfold State.validate_bytes StateBuf.new_random_len
    rw [Bool.and_eq_true]
    constructor
    · rw [List.all_eq_true]
      intro x hx
      obtain ⟨n, hn, hxeq⟩ := b64urlEncode_mem rb hb x hx
      rw [hxeq]
      exact b64Byte_vschar n hn
    · rw [decide_eq_true_eq, b64urlEncode_length]
      omega
  exact ⟨main, fun rb h16 hb => main rb (by omega) hb⟩

/-- Witness for C10 at a concrete 16-byte randomness outcome. -/
theorem new_random_state_valid_witness :
    State.validate_bytes (StateBuf.new_random_len (List.replicate 16 0)) = true :=
  new_random_state_valid.1 (List.replicate 16 0) (by decide) (by decide)

/-- C8: for a valid scope buffer and a valid scope token, inserting a
contained token returns false and leaves the buffer unchanged;
inserting a fresh token returns true and appends it as the last
space-separated token, after which the buffer contains it and still
satisfies the `Scope` grammar; hence inserting twice changes the
buffer at most once. -/
theorem scopebuf_insert_spec (s t : Bytes)
    (hs : Scope.validate_bytes s = true) (ht : ScopeToken.validate_bytes t = true) :
    (Scope.contains s t = true → ScopeBuf.insert s t = (s, false))
    ∧ (Scope.contains s t = false →
        ScopeBuf.insert s t = (s ++ 0x20 :: t, true)
        ∧ splitSp (s ++ 0x20 :: t) = splitSp s ++ [t]
        ∧ Scope.contains (s ++ 0x20 :: t) t = true
        ∧ Scope.validate_bytes (s ++ 0x20 :: t) = true)
    ∧ (ScopeBuf.insert (ScopeBuf.insert s t).1 t).1 = (ScopeBuf.insert s t).1 := by
  have htok : t.all is_nqchar = true ∧ 1 < t.length := by
    have h := ht
    unfold ScopeToken.validate_bytes at h
    rw [Bool.and_eq_true, decide_eq_true_eq] at h
    exact h
  have htne : t ≠ [] := by
    intro h
    rw [h] at htok
    simp at htok
  have hnospace : ∀ b ∈ t, b ≠ 0x20 :=
    fun b hb => is_nqchar_ne_space (List.all_eq_true.mp htok.1 b hb)
  have hsplit : splitSp (s ++ 0x20 :: t) = splitSp s ++ [t] := by
    rw [splitSp_append_space, splitSp_no_space t hnospace]
  have hcontains2 : Scope.contains (s ++ 0x20 :: t) t = true := by
    unfold Scope.contains
    rw [hsplit]
    simp
  have hvalid2 : Scope.validate_bytes (s ++ 0x20 :: t) = true := by
    unfold Scope.validate_bytes at hs ⊢
    exact scopeLoop_append_token t (scopeLoop_of_token t htne htok.1) s false hs
  refine ⟨?_, ?_, ?_⟩
  · intro hc
    simp [ScopeBuf.insert, hc]
  · intro hc
    refine ⟨?_, hsplit, hcontains2, hvalid2⟩
    simp [ScopeBuf.insert, hc]
  · by_cases hc : Scope.contains s t = true
    · simp [ScopeBuf.insert, hc]
    · have hc2 : Scope.contains s t = false := by
        simpa using hc
      simp [ScopeBuf.insert, hc2, hcontains2]

/-- Witness for C8 at concrete scope and token. -/
theorem scopebuf_insert_spec_witness :
    Scope.validate_bytes (strBytes ("openid")) = true
    ∧ ScopeToken.validate_bytes (strBytes ("email")) = true
    ∧ (ScopeBuf.insert (ScopeBuf.insert (strBytes ("openid"))
          (strBytes ("email"))).1 (strBytes ("email"))).1
        = (ScopeBuf.insert (strBytes ("openid")) (strBytes ("email"))).1 :=
  ⟨by decide, by decide,
    (scopebuf_insert_spec (strBytes ("openid")) (strBytes ("email"))
      (by decide) (by decide)).2.2⟩

/-- C4: for every grammar-valid verifier, `transform` with `Plain`
returns the verifier bytes unchanged and the result passes the
challenge grammar; with `S256` it returns the base64url-no-pad
encoding of the SHA-256 digest of the verifier bytes, which has 43
characters and always passes the challenge grammar. -/
theorem pkce_transform_spec (v : Bytes)
    (hv : PkceCodeVerifier.validate_bytes v = true) :
    PkceCodeChallengeMethod.transform .plain v = v
    ∧ PkceCodeChallenge.validate_bytes (PkceCodeChallengeMethod.transform .plain v) = true
    ∧ PkceCodeChallengeMethod.transform .s256 v = b64urlEncode (sha256 v)
    ∧ (PkceCodeChallengeMethod.transform .s256 v).length = 43
    ∧ PkceCodeChallenge.validate_bytes (PkceCodeChallengeMethod.transform .s256 v) = true := by
  have hlen : (b64urlEncode (sha256 v)).length = 43 := by
    rw [b64urlEncode_length, sha256_length]
  have hmem : ∀ x ∈ b64urlEncode (sha256 v),
      (isAsciiAlphanumericByte x || x == 0x2d || x == 0x2e || x == 0x5f
        || x == 0x7e) = true := by
    intro x hx
    obtain ⟨n, hn, hxeq⟩ := b64urlEncode_mem (sha256 v) (sha256_lt v) x hx
    rw [hxeq]
    exact b64Byte_unreserved n hn
  refine ⟨rfl, hv, rfl, hlen, ?_⟩
  show validate_verifier_or_challenge (b64urlEncode (sha256 v)) = true
  unfold validate_verifier_or_challenge
  rw [hlen]
  norm_num
  intro x hx
  have h := hmem x hx
  simp only [Bool.or_eq_true, beq_iff_eq] at h
  tauto

/-- Witness for C4 at a concrete 43-character verifier. -/
theorem pkce_transform_spec_witness :
    PkceCodeVerifier.validate_bytes (List.replicate 43 0x61) = true
    ∧ PkceCodeChallenge.validate_bytes
        (PkceCodeChallengeMethod.transform .s256 (List.replicate 43 0x61)) = true :=
  ⟨by decide, (pkce_transform_spec (List.replicate 43 0x61) (by decide)).2.2.2.2⟩

/-- C2: the token-endpoint decode returns a decoded payload exactly
when the status is 200, a `content-type` header is present whose
value starts with the bytes of `application/json`, and the body
deserializes; any non-200 status yields `ServerError(status)` without
ever consulting the deserializer, and a missing or non-matching
content type yields a `Response` error.  The PAR decode behaves
identically with expected status 201 and payload
`PushedAuthorizationResponse`. -/
theorem decode_response_spec {E : Type}
    (de : Bytes → Except String (TokenResponse E))
    (dp : Bytes → Except String PushedAuthorizationResponse)
    (response : HttpResponse Bytes) :
    ((∀ out, PreAuthorizedCodeTokenRequest.decode_response de response = .ok out ↔
        (response.status = 200
          ∧ (∃ ct, headerGet response.headers ("content-type") = some ct
              ∧ bytesStartWith ct APPLICATION_JSON = true)
          ∧ de response.body = .ok out.body
          ∧ out.status = response.status ∧ out.headers = response.headers))
      ∧ (response.status ≠ 200 →
          ∀ g : Bytes → Except String (TokenResponse E),
            PreAuthorizedCodeTokenRequest.decode_response g response
              = .error (.serverError response.status))
      ∧ (response.status = 200 →
          headerGet response.headers ("content-type") = none →
            PreAuthorizedCodeTokenRequest.decode_response de response
              = .error (.response ("missing content type")))
      ∧ (response.status = 200 →
          ∀ ct, headerGet response.headers ("content-type") = some ct →
            bytesStartWith ct APPLICATION_JSON = false →
              PreAuthorizedCodeTokenRequest.decode_response de response
                = .error (.response ("unexpected content type"))))
    ∧ ((∀ out, Pushed.decode_response dp response = .ok out ↔
        (response.status = 201
          ∧ (∃ ct, headerGet response.headers ("content-type") = some ct
              ∧ bytesStartWith ct APPLICATION_JSON = true)
          ∧ dp response.body = .ok out.body
          ∧ out.status = response.status ∧ out.headers = response.headers))
      ∧ (response.status ≠ 201 →
          ∀ g : Bytes → Except String PushedAuthorizationResponse,
            Pushed.decode_response g response
              = .error (.serverError response.status))
      ∧ (response.status = 201 →
          headerGet response.headers ("content-type") = none →
            Pushed.decode_response dp response
              = .error (.response ("missing content type")))
      ∧ (response.status = 201 →
          ∀ ct, headerGet response.headers ("content-type") = some ct →
            bytesStartWith ct APPLICATION_JSON = false →
              Pushed.decode_response dp response
                = .error (.response ("unexpected content type")))) := by
  constructor
  · refine ⟨?_, ?_, ?_, ?_⟩
    · intro out
      obtain ⟨os, oh, ob⟩ := out
      unfold PreAuthorizedCodeTokenRequest.decode_response expect_content_type
      by_cases hst : response.status = 200
      · simp only [hst, ne_eq, not_true_eq_false, if_false]
        cases hct : headerGet response.headers ("content-type") with
        | none => simp [hct]
        | some ct =>
          by_cases hpre : bytesStartWith ct APPLICATION_JSON = true
          · simp only [hpre, if_true]
            cases hde : de response.body with
            | error e => simp [hde]
            | ok body =>
              simp only [Except.ok.injEq, HttpResponse.mk.injEq, hde, hct]
              constructor
              · rintro ⟨h1, h2, h3⟩
                exact ⟨trivial, ⟨ct, rfl, hpre⟩, h3, h1.symm, h2.symm⟩
              · rintro ⟨-, -, h3, h4, h5⟩
                exact ⟨h4.symm, h5.symm, h3⟩
          · rw [Bool.not_eq_true] at hpre
            simp [hpre, hst]
      · simp [hst]
    · intro hst g
      unfold PreAuthorizedCodeTokenRequest.decode_response
      simp [hst]
    · intro hst hct
      unfold PreAuthorizedCodeTokenRequest.decode_response expect_content_type
      simp [hst, hct]
    · intro hst ct hct hpre
      unfold PreAuthorizedCodeTokenRequest.decode_response expect_content_type
      simp [hst, hct, hpre]
  · refine ⟨?_, ?_, ?_, ?_⟩
    · intro out
      obtain ⟨os, oh, ob⟩ := out
      unfold Pushed.decode_response expect_content_type
      by_cases hst : response.status = 201
      · simp only [hst, ne_eq, not_true_eq_false, if_false]
        cases hct : headerGet response.headers ("content-type") with
        | none => simp [hct]
        | some ct =>
          by_cases hpre : bytesStartWith ct APPLICATION_JSON = true
          · simp only [hpre, if_true]
            cases hde : dp response.body with
            | error e => simp [hde]
            | ok body =>
              simp only [Except.ok.injEq, HttpResponse.mk.injEq, hde, hct]
              constructor
              · rintro ⟨h1, h2, h3⟩
                exact ⟨trivial, ⟨ct, rfl, hpre⟩, h3, h1.symm, h2.symm⟩
              · rintro ⟨-, -, h3, h4, h5⟩
                exact ⟨h4.symm, h5.symm, h3⟩
          · rw [Bool.not_eq_true] at hpre
            simp [hpre, hst]
      · simp [hst]
    · intro hst g
      unfold Pushed.decode_response
      simp [hst]
    · intro hst hct
      unfold Pushed.decode_response expect_content_type
      simp [hst, hct]
    · intro hst ct hct hpre
      unfold Pushed.decode_response expect_content_type
      simp [hst, hct, hpre]

/-- Witness for C2 at a concrete 403 response: the server error is
reported regardless of the deserializer. -/
theorem decode_response_spec_witness :
    PreAuthorizedCodeTokenRequest.decode_response
        (fun _ => (.error ("never") : Except String (TokenResponse Unit)))
        ⟨403, [], []⟩
      = .error (.serverError 403) :=
  (decode_response_spec (fun _ => (.error ("never") : Except String (TokenResponse Unit)))
      (fun _ => .error ("never")) ⟨403, [], []⟩).1.2.1 (by decide)
    (fun _ => .error ("never"))

/-- C6: once a discovery response has status 200, a valid content
type, and a body deserializing to some metadata, discovery succeeds
and returns that metadata exactly when its issuer field equals the
requested base URL; on a mismatch the result is a Response error, so
no metadata is returned. -/
theorem discovery_issuer_check_spec {P : Type}
    (de : Bytes → Except String (AuthorizationServerMetadata P))
    (base_url : String) (response : HttpResponse Bytes)
    (m : AuthorizationServerMetadata P)
    (hst : response.status = 200)
    (hct : expect_content_type response.headers APPLICATION_JSON = .ok ())
    (hde : de response.body = .ok m) :
    (discovery_response de base_url response = .ok m ↔ m.issuer = base_url)
    ∧ (m.issuer ≠ base_url →
        discovery_response de base_url response
          = .error (.response ("invalid authorization server metadata issuer"))) := by
  unfold discovery_response
  simp only [hst, ne_eq, not_true_eq_false, if_false, hct, hde]
  unfold AuthorizationServerMetadata.validate
  by_cases hiss : m.issuer = base_url
  · have hb : (m.issuer == base_url) = true := beq_iff_eq.mpr hiss
    simp [hb, hiss]
  · have hb : (m.issuer == base_url) = false := beq_eq_false_iff_ne.mpr hiss
    simp [hb, hiss]

/-- Witness for C6 at a concrete matching discovery exchange. -/
theorem discovery_issuer_check_spec_witness :
    discovery_response
        (fun _ => (.ok (⟨"uri:a", none, none, ()⟩ : AuthorizationServerMetadata Unit)))
        ("uri:a")
        ⟨200, [("content-type", strBytes ("application/json"))], []⟩
      = .ok (⟨"uri:a", none, none, ()⟩ : AuthorizationServerMetadata Unit) :=
  ((discovery_issuer_check_spec
      (fun _ => (.ok (⟨"uri:a", none, none, ()⟩ : AuthorizationServerMetadata Unit)))
      ("uri:a")
      ⟨200, [("content-type", strBytes ("application/json"))], []⟩
      ⟨"uri:a", none, none, ()⟩
      rfl rfl rfl).1).mpr rfl
